import Mathlib

/-!
# Verification of the PatchEngine core (Source/Core/Core/PatchEngine.cpp)

Shallow embedding of the Dolphin-derived runtime memory-patch engine:
the entry codec (DeserializeLine / SerializeLine), the two-source config
merger (LoadPatchSection / SavePatchSection), the speed-hack table
(LoadSpeedhacks / GetSpeedhackCycles), the per-frame applier
(ApplyPatches / IsStackSane / ApplyFramePatches) and the lifecycle
(LoadPatches / Shutdown / Reload).

Strings are modelled as lists of characters (`Str`), 32-bit machine
integers as naturals reduced modulo `two32` where overflow matters.
Collaborators of this repository that are not part of the supplied
sources (SplitString, TryParse, ReadEnabledAndDisabled, the IniFile
line store) are modelled from the specification and marked as such.
-/

namespace PatchEngine

/-- Strings of the embedding: C++ std::string as a list of characters. -/
abbrev Str := List Char

/-- Modulus of 32-bit unsigned arithmetic. -/
def two32 : Nat := 4294967296

/-- Modulus of 16-bit unsigned arithmetic. -/
def two16 : Nat := 65536

/-- Modelled from the spec: SplitString (Common/StringUtil, not under src/)
splits a string on a delimiter character; an empty input yields one empty
field, a delimiter at either end yields an empty field on that side. -/
def splitOnChar (d : Char) : Str → List Str
  | [] => [[]]
  | c :: cs =>
    match splitOnChar d cs with
    | [] => [[c]]
    | f :: rest => if c = d then [] :: f :: rest else (c :: f) :: rest

/-- DeserializeLine first replaces the first occurrence of the legacy
separator with a colon: `line[loc] = ':'` at the first `=`. -/
def replaceFirstEq : Str → Str
  | [] => []
  | c :: cs => if c = '=' then ':' :: cs else c :: replaceFirstEq cs

/-- Value of a decimal digit character. -/
def decVal (c : Char) : Option Nat :=
  if '0' ≤ c ∧ c ≤ '9' then some (c.toNat - 48) else none

/-- Value of a hexadecimal digit character (both cases accepted). -/
def hexVal (c : Char) : Option Nat :=
  if '0' ≤ c ∧ c ≤ '9' then some (c.toNat - 48)
  else if 'a' ≤ c ∧ c ≤ 'f' then some (c.toNat - 87)
  else if 'A' ≤ c ∧ c ≤ 'F' then some (c.toNat - 55)
  else none

/-- Accumulating digit scan: fails at the first non-digit. -/
def parseDigitsAux (base : Nat) (dv : Char → Option Nat) : Str → Nat → Option Nat
  | [], acc => some acc
  | c :: cs, acc =>
    match dv c with
    | none => none
    | some v => parseDigitsAux base dv cs (acc * base + v)

/-- A non-empty all-digit string parses; anything else fails. -/
def parseUnsigned (base : Nat) (dv : Char → Option Nat) : Str → Option Nat
  | [] => none
  | c :: cs => parseDigitsAux base dv (c :: cs) 0

/-- Modelled from the spec: TryParse into a u32 (Common/StringUtil, not
under src/) accepts a hex literal when prefixed by 0x or 0X and a decimal
literal otherwise, and fails when the value does not fit in 32 bits. -/
def tryParseU32 (s : Str) : Option Nat :=
  let raw :=
    match s with
    | '0' :: 'x' :: rest => parseUnsigned 16 hexVal rest
    | '0' :: 'X' :: rest => parseUnsigned 16 hexVal rest
    | _ => parseUnsigned 10 decVal s
  match raw with
  | none => none
  | some n => if n < two32 then some n else none

/-- One memory write operation, decoded from one configuration line.
The `type` field carries the numeric value of the C++ PatchType enum
(0 = byte, 1 = word, 2 = dword); the switch in ApplyPatches has a default
branch, so values outside 0..2 are representable and ignored there. -/
structure PatchEntry where
  type : Nat := 0
  address : Nat := 0
  value : Nat := 0
  comparand : Nat := 0
  conditional : Bool := false
deriving DecidableEq

/-- Token of the byte patch type. -/
def byteTok : Str := "byte".data

/-- Token of the word patch type. -/
def wordTok : Str := "word".data

/-- Token of the dword patch type. -/
def dwordTok : Str := "dword".data

/-- The parallel array s_patch_type_strings, index = enum value. -/
def s_patch_type_strings : List Str := [byteTok, wordTok, dwordTok]

/-- PatchTypeAsString via .at, which throws out of range: modelled as
an Option, none standing for the exception. -/
def patchTypeAsString (t : Nat) : Option Str :=
  s_patch_type_strings.get? t

/-- The field list DeserializeLine works on: the line with its first `=`
replaced by `:`, split on `:`. -/
def lineItems (line : Str) : List Str :=
  splitOnChar ':' (replaceFirstEq line)

/-- Body of DeserializeLine once the field list is built: need at least
3 fields; field 0 is the address, field 2 the value; a 4th field, when
present, must parse and makes the entry conditional; field 1 must be one
of the three type tokens, its index becoming the type. -/
def deserializeFromItems (items : List Str) : Option PatchEntry :=
  if items.length < 3 then none
  else
    match tryParseU32 (items.getD 0 []) with
    | none => none
    | some address =>
      match tryParseU32 (items.getD 2 []) with
      | none => none
      | some value =>
        let cond : Option (Nat × Bool) :=
          if 4 ≤ items.length then
            match tryParseU32 (items.getD 3 []) with
            | none => none
            | some comparand => some (comparand, true)
          else some (0, false)
        match cond with
        | none => none
        | some (comparand, conditional) =>
          match s_patch_type_strings.findIdx? (fun s => s = items.getD 1 []) with
          | none => none
          | some t =>
            some { type := t, address := address, value := value,
                   comparand := comparand, conditional := conditional }

/-- DeserializeLine: build the field list, then decode it. -/
def deserializeLineChars (line : Str) : Option PatchEntry :=
  deserializeFromItems (lineItems line)

/-- Uppercase hexadecimal digit of a value below 16. -/
def toHexDigit (n : Nat) : Char :=
  (['0', '1', '2', '3', '4', '5', '6', '7', '8', '9',
    'A', 'B', 'C', 'D', 'E', 'F']).getD n '0'

/-- Least-significant-first list of `k` hex digits of `n`. -/
def toHexRev : Nat → Nat → Str
  | 0, _ => []
  | k + 1, n => toHexDigit (n % 16) :: toHexRev k (n / 16)

/-- The fmt specifier 0x{:08X}: 0x then eight uppercase hex digits. -/
def hex8 (n : Nat) : Str := '0' :: 'x' :: (toHexRev 8 n).reverse

/-- SerializeLine: canonical hex form, the comparand field appended iff
the entry is conditional; none models the out-of-range throw of
PatchTypeAsString on a type outside the table. -/
def serializeLineChars (e : PatchEntry) : Option Str :=
  match patchTypeAsString e.type with
  | none => none
  | some ts =>
    if e.conditional then
      some (hex8 e.address ++ ':' :: ts ++ ':' :: hex8 e.value ++ ':' :: hex8 e.comparand)
    else
      some (hex8 e.address ++ ':' :: ts ++ ':' :: hex8 e.value)

/-- One named patch: an ordered entry list plus the three flags of the
C++ Patch struct (all three default to false). -/
structure Patch where
  name : Str
  entries : List PatchEntry
  enabled : Bool := false
  default_enabled : Bool := false
  user_defined : Bool := false
deriving DecidableEq

/-- The freshly constructed Patch currentPatch of a scan pass. -/
def emptyPatch : Patch := { name := [], entries := [] }

/-- One iteration of the line scan in LoadPatchSection: an empty line is
skipped; a line starting with `$` flushes the previous in-progress patch
when its name is non-empty, clears the entry buffer and takes the rest of
the line as the new name; any other line is decoded by the entry codec,
a failed decode being dropped silently. -/
def processLine (isLocal : Bool) (st : Patch × List Patch) (line : Str) :
    Patch × List Patch :=
  match line with
  | [] => st
  | c :: rest =>
    if c = '$' then
      ({ st.1 with name := rest, entries := [], user_defined := isLocal },
       if st.1.name = [] then st.2 else st.2 ++ [st.1])
    else
      match deserializeLineChars (c :: rest) with
      | some e => ({ st.1 with entries := st.1.entries ++ [e] }, st.2)
      | none => st

/-- The scan loop of one pass over one source followed by the final
flush, which requires a non-empty name AND a non-empty entry list. -/
def scanFrom (isLocal : Bool) (lines : List Str) (st : Patch × List Patch) :
    List Patch :=
  let res := lines.foldl (processLine isLocal) st
  if res.1.name ≠ [] ∧ res.1.entries ≠ [] then res.2 ++ [res.1] else res.2

/-- One full scan pass of LoadPatchSection over one source, starting from
a fresh currentPatch and appending to the list built so far. -/
def parseLines (isLocal : Bool) (lines : List Str) (ps : List Patch) :
    List Patch :=
  scanFrom isLocal lines (emptyPatch, ps)

/-- A configuration source, exposing the line list of each section. -/
abbrev IniFile := Str → List Str

/-- Suffix of the enabled-override section name. -/
def enabledSuffix : Str := "_Enabled".data

/-- Suffix of the disabled-override section name. -/
def disabledSuffix : Str := "_Disabled".data

/-- Modelled from the spec: ReadEnabledOrDisabled (Core/CheatCodes.h, not
under src/) reads the line list of section_Enabled or section_Disabled
and, for every `$name` line, sets enabled to the given flag on each patch
of the list whose name matches. -/
def readEnabledOrDisabled (ini : IniFile) (sect : Str) (flag : Bool)
    (patches : List Patch) : List Patch :=
  (ini (sect ++ (if flag then enabledSuffix else disabledSuffix))).foldl
    (fun ps line =>
      match line with
      | [] => ps
      | c :: rest =>
        if c = '$' then
          ps.map (fun p => if p.name = rest then { p with enabled := flag } else p)
        else ps)
    patches

/-- Modelled from the spec: ReadEnabledAndDisabled (Core/CheatCodes.h, not
under src/) applies the enabled overrides, then the disabled overrides. -/
def readEnabledAndDisabled (ini : IniFile) (sect : Str) (patches : List Patch) :
    List Patch :=
  readEnabledOrDisabled ini sect false (readEnabledOrDisabled ini sect true patches)

/-- LoadPatchSection: the loop over inis[2] = (global, local) unrolled.
Each pass scans the section's lines into the shared list and applies that
source's overrides; after the global pass only, every patch's enabled is
snapshotted into default_enabled. -/
def loadPatchSection (sect : Str) (globalIni localIni : IniFile)
    (init : List Patch) : List Patch :=
  let ps1 := readEnabledAndDisabled globalIni sect (parseLines false (globalIni sect) init)
  let ps2 := ps1.map (fun p => { p with default_enabled := p.enabled })
  readEnabledAndDisabled localIni sect (parseLines true (localIni sect) ps2)

/-- The three line lists written by SavePatchSection. -/
structure SaveOutput where
  lines : List Str
  lines_enabled : List Str
  lines_disabled : List Str
deriving DecidableEq

/-- The serialization loop over a patch's entries; none propagates the
out-of-range throw of SerializeLine on an unknown type. -/
def serializeEntries : List PatchEntry → Option (List Str)
  | [] => some []
  | e :: es =>
    match serializeLineChars e, serializeEntries es with
    | some s, some ss => some (s :: ss)
    | _, _ => none

/-- The body of SavePatchSection's loop for one patch: an override line
goes to the enabled or disabled list iff enabled differs from
default_enabled; a user-defined patch re-emits its full definition. -/
def savePatchStep (acc : SaveOutput) (p : Patch) : Option SaveOutput :=
  let acc :=
    if p.enabled ≠ p.default_enabled then
      if p.enabled then
        { acc with lines_enabled := acc.lines_enabled ++ ['$' :: p.name] }
      else
        { acc with lines_disabled := acc.lines_disabled ++ ['$' :: p.name] }
    else acc
  if p.user_defined then
    match serializeEntries p.entries with
    | none => none
    | some ss => some { acc with lines := acc.lines ++ ('$' :: p.name) :: ss }
  else some acc

/-- The loop of SavePatchSection over the patch list. -/
def saveLoop : List Patch → SaveOutput → Option SaveOutput
  | [], acc => some acc
  | p :: ps, acc =>
    match savePatchStep acc p with
    | none => none
    | some acc2 => saveLoop ps acc2

/-- SavePatchSection: the three line lists handed to the local ini
(OnFrame, OnFrame_Enabled, OnFrame_Disabled). -/
def savePatchSection (patches : List Patch) : Option SaveOutput :=
  saveLoop patches ⟨[], [], []⟩

/-- The sentinel default value of the speed-hack value read. -/
def bogusTok : Str := "BOGUS".data

/-- Reinterpretation of a u32 as a signed 32-bit int, as done by the
static_cast<int> on the parsed cycle count. -/
def toInt32 (n : Nat) : Int :=
  if n % two32 < 2147483648 then (n % two32 : Int) else (n % two32 : Int) - (two32 : Int)

/-- Insert-or-replace on the association list modelling std::map. -/
def mapUpsert (k : Nat) (v : Int) : List (Nat × Int) → List (Nat × Int)
  | [] => [(k, v)]
  | (k2, v2) :: rest =>
    if k2 = k then (k, v) :: rest else (k2, v2) :: mapUpsert k v rest

/-- A flat key/value section of an ini file, in key order. -/
abbrev KVSection := List (Str × Str)

/-- LoadSpeedhacks: every key of the section is parsed as an address and
its value as a cycle count; a row whose value is the BOGUS sentinel or
where either parse fails is skipped; successful rows are written into the
table (std::map assignment). -/
def loadSpeedhacks (sect : KVSection) (table : List (Nat × Int)) :
    List (Nat × Int) :=
  sect.foldl
    (fun tab kv =>
      if kv.2 = bogusTok then tab
      else
        match tryParseU32 kv.1, tryParseU32 kv.2 with
        | some address, some cycles => mapUpsert address (toInt32 cycles) tab
        | _, _ => tab)
    table

/-- GetSpeedhackCycles: map lookup, 0 when the address is absent. -/
def getSpeedhackCycles (table : List (Nat × Int)) (addr : Nat) : Int :=
  match table.lookup addr with
  | none => 0
  | some c => c

/-- Guest memory: a byte per 32-bit address (reads and writes reduce the
address modulo two32 and the stored byte modulo 256). -/
abbrev Mem := Nat → Nat

/-- HostRead_U8 of the embedding. -/
def read8 (m : Mem) (a : Nat) : Nat := m (a % two32) % 256

/-- HostWrite_U8 of the embedding. -/
def write8 (m : Mem) (a v : Nat) : Mem :=
  fun x => if x = a % two32 then v % 256 else m x

/-- HostRead_U16: big-endian pair of bytes. -/
def read16 (m : Mem) (a : Nat) : Nat := read8 m a * 256 + read8 m (a + 1)

/-- HostWrite_U16: big-endian pair of bytes. -/
def write16 (m : Mem) (a v : Nat) : Mem :=
  write8 (write8 m a (v / 256)) (a + 1) v

/-- HostRead_U32: big-endian quadruple of bytes. -/
def read32 (m : Mem) (a : Nat) : Nat :=
  read8 m a * 16777216 + read8 m (a + 1) * 65536 + read8 m (a + 2) * 256 + read8 m (a + 3)

/-- HostWrite_U32: big-endian quadruple of bytes. -/
def write32 (m : Mem) (a v : Nat) : Mem :=
  write8 (write8 (write8 (write8 m a (v / 16777216)) (a + 1) (v / 65536)) (a + 2) (v / 256)) (a + 3) v

/-- One iteration of the inner loop of ApplyPatches: the switch on the
entry type, each recognized width checking the comparand (truncated to
that width) against the current memory value when the entry is
conditional, and the default branch doing nothing. -/
def applyOneEntry (m : Mem) (e : PatchEntry) : Mem :=
  match e.type with
  | 0 =>
    if ¬e.conditional ∨ read8 m e.address = e.comparand % 256 then
      write8 m e.address e.value
    else m
  | 1 =>
    if ¬e.conditional ∨ read16 m e.address = e.comparand % two16 then
      write16 m e.address e.value
    else m
  | 2 =>
    if ¬e.conditional ∨ read32 m e.address = e.comparand % two32 then
      write32 m e.address e.value
    else m
  | _ => m

/-- ApplyPatches: every enabled patch's entries are applied in order;
disabled patches are skipped whole. -/
def applyPatchesMem (patches : List Patch) (m : Mem) : Mem :=
  patches.foldl
    (fun mem p => if p.enabled then p.entries.foldl applyOneEntry mem else mem)
    m

/-- Statement helper: the modulus of each recognized patch width (the
range of the static_cast truncations in ApplyPatches). -/
def widthMod : Nat → Nat
  | 0 => 256
  | 1 => two16
  | 2 => two32
  | _ => 1

/-- Statement helper: the guest-memory read at the width declared by a
patch type (meaningful for the three recognized types only). -/
def readW : Nat → Mem → Nat → Nat
  | 0 => read8
  | 1 => read16
  | 2 => read32
  | _ => fun _ _ => 0

/-- The emulated CPU and guest-memory state consulted by the applier:
the two MSR translation flags, the stack-pointer register GPR(1), guest
RAM, the two address-validity predicates, the instruction fetch
primitive, and the external tag-set session flag. -/
structure Machine where
  dr : Bool
  ir : Bool
  gpr1 : Nat
  mem : Mem
  isRAM : Nat → Bool
  isInstrRAM : Nat → Bool
  instrAt : Nat → Nat
  tagSetActive : Bool

/-- IsStackSane: the stack pointer must address valid RAM; the word read
there (the saved frame pointer) must be strictly greater and, with its
successor word, address valid RAM; the word at next_SP + 4 (the saved
link register) must address valid instruction memory holding a non-zero
instruction. -/
def isStackSane (m : Machine) : Bool :=
  let sp := m.gpr1 % two32
  if ¬m.isRAM sp then false
  else
    let nextSP := read32 m.mem sp
    if nextSP ≤ sp ∨ ¬m.isRAM nextSP ∨ ¬m.isRAM ((nextSP + 4) % two32) then false
    else
      let address := read32 m.mem ((nextSP + 4) % two32)
      m.isInstrRAM address && m.instrAt address ≠ 0

/-- ApplyFramePatches: on a failed gate (either translation flag off, or
the stack-sanity heuristic failing) return false without touching any
state; otherwise run the rio functions, the Gecko code handler and — when
no tag set is active — the frame patches and ActionReplay, returning
true. The three external engines are parameters of the embedding. -/
def applyFramePatches (runRio runGecko runAR : Machine → Machine)
    (patches : List Patch) (m : Machine) : Bool × Machine :=
  if ¬m.dr ∨ ¬m.ir ∨ ¬isStackSane m then (false, m)
  else
    let m1 := runRio m
    let m2 := runGecko m1
    if m2.tagSetActive then (true, m2)
    else (true, runAR { m2 with mem := applyPatchesMem patches m2.mem })

/-- The process-wide engine state: s_on_frame and s_speed_hacks. -/
structure EngineState where
  on_frame : List Patch
  speed_hacks : List (Nat × Int)
deriving DecidableEq

/-- The configuration consulted by LoadPatches: the global and local game
ini (for the patch section) and the merged ini's Speedhacks section. -/
structure Config where
  globalIni : IniFile
  localIni : IniFile
  speedhacks : KVSection

/-- Section name of the frame patches. -/
def onFrameSect : Str := "OnFrame".data

/-- LoadPatches restricted to the state this engine owns: the OnFrame
section is scanned into s_on_frame and the Speedhacks section into
s_speed_hacks; neither container is cleared first (the Gecko and
ActionReplay calls touch only external engines). -/
def loadPatches (cfg : Config) (st : EngineState) : EngineState :=
  { on_frame := loadPatchSection onFrameSect cfg.globalIni cfg.localIni st.on_frame,
    speed_hacks := loadSpeedhacks cfg.speedhacks st.speed_hacks }

/-- Shutdown clears both containers unconditionally. -/
def shutdown (_st : EngineState) : EngineState :=
  { on_frame := [], speed_hacks := [] }

/-- Reload is Shutdown followed by LoadPatches. -/
def reload (cfg : Config) (st : EngineState) : EngineState :=
  loadPatches cfg (shutdown st)

/-! ## Helper lemmas -/

theorem lookup_mapUpsert_ne (tab : List (Nat × Int)) (k : Nat) (v : Int) (a : Nat)
    (h : a ≠ k) : (mapUpsert k v tab).lookup a = tab.lookup a := by
  induction tab with
  | nil => simp [mapUpsert, List.lookup, beq_false_of_ne h]
  | cons kv rest ih =>
    obtain ⟨k2, v2⟩ := kv
    by_cases hk : k2 = k
    · subst hk
      simp [mapUpsert, List.lookup]
      by_cases ha : a = k2
      · exact absurd ha h
      · simp [ha, beq_false_of_ne ha]
    · simp only [mapUpsert, if_neg hk, List.lookup]
      by_cases ha : a = k2
      · subst ha; simp
      · simp [beq_false_of_ne ha, ih]

theorem loadSpeedhacks_lookup_of_absent (sect : KVSection) (addr : Nat) :
    ∀ tab : List (Nat × Int),
      (∀ kv ∈ sect, ¬(kv.2 ≠ bogusTok ∧ tryParseU32 kv.1 = some addr ∧
        (tryParseU32 kv.2).isSome = true)) →
      (loadSpeedhacks sect tab).lookup addr = tab.lookup addr := by
  induction sect with
  | nil => intro tab _; rfl
  | cons kv rest ih =>
    intro tab h
    obtain ⟨k, v⟩ := kv
    have hkv := h (k, v) (List.mem_cons_self _ _)
    have hrest : ∀ kv2 ∈ rest, ¬(kv2.2 ≠ bogusTok ∧ tryParseU32 kv2.1 = some addr ∧
        (tryParseU32 kv2.2).isSome = true) :=
      fun kv2 hm => h kv2 (List.mem_cons_of_mem _ hm)
    simp only [loadSpeedhacks, List.foldl_cons]
    by_cases hb : v = bogusTok
    · simpa [loadSpeedhacks, hb] using ih tab hrest
    · cases hk : tryParseU32 k with
      | none => simpa [loadSpeedhacks, hb, hk] using ih tab hrest
      | some a2 =>
        cases hv : tryParseU32 v with
        | none => simpa [loadSpeedhacks, hb, hk, hv] using ih tab hrest
        | some cyc =>
          have hne : addr ≠ a2 := by
            intro heq
            exact hkv ⟨hb, by rw [hk, heq], by rw [hv]; rfl⟩
          have := ih (mapUpsert a2 (toInt32 cyc) tab) hrest
          simpa [loadSpeedhacks, hb, hk, hv, lookup_mapUpsert_ne _ _ _ _ hne] using this

/-! ## Claim theorems -/

/-- C9: an address never successfully loaded into the speed-hack table looks
up as 0, and a row whose key or value fails to parse is dropped without
affecting any other row. -/
theorem c9_speedhack_lookup (sect : KVSection) (addr : Nat)
    (h : ∀ kv ∈ sect, ¬(kv.2 ≠ bogusTok ∧ tryParseU32 kv.1 = some addr ∧
      (tryParseU32 kv.2).isSome = true)) :
    getSpeedhackCycles (loadSpeedhacks sect []) addr = 0
    ∧ ∀ (pre post : KVSection) (k v : Str),
        (tryParseU32 k = none ∨ tryParseU32 v = none) →
        loadSpeedhacks (pre ++ (k, v) :: post) [] = loadSpeedhacks (pre ++ post) [] := by
  constructor
  · have := loadSpeedhacks_lookup_of_absent sect addr [] h
    simp only [getSpeedhackCycles, this, List.lookup_nil]
  · intro pre post k v hbad
    simp only [loadSpeedhacks, List.foldl_append, List.foldl_cons]
    congr 1
    by_cases hb : v = bogusTok
    · simp [hb]
    · rcases hbad with hk | hv
      · cases hv2 : tryParseU32 v <;> simp [hb, hk, hv2]
      · cases hk2 : tryParseU32 k <;> simp [hb, hv, hk2]

/-- C9 witness: a malformed row never shows up in a lookup. -/
theorem c9_speedhack_lookup_witness :
    getSpeedhackCycles (loadSpeedhacks [(("10").data, ("xx").data)] []) 10 = 0 :=
  (c9_speedhack_lookup [(("10").data, ("xx").data)] 10 (by decide)).1

/-- C8 counterexample: LoadPatches does not clear s_on_frame first, so a
second Load over the same configuration duplicates the patch list instead
of rebuilding it. -/
theorem c8_load_counterexample :
    (loadPatches
        ⟨fun s => if s = onFrameSect then ['$' :: ("A").data, ("0:byte:0").data] else [],
         fun _ => [], []⟩
        (loadPatches
          ⟨fun s => if s = onFrameSect then ['$' :: ("A").data, ("0:byte:0").data] else [],
           fun _ => [], []⟩
          ⟨[], []⟩)).on_frame ≠
    (loadPatches
        ⟨fun s => if s = onFrameSect then ['$' :: ("A").data, ("0:byte:0").data] else [],
         fun _ => [], []⟩
        ⟨[], []⟩).on_frame := by
  decide

/-- C8 amended: Reload fully rebuilds the engine state — its result is
independent of the prior state and equals a Load from the cleared state —
and Shutdown clears both containers unconditionally; Load itself scans
into the existing containers without clearing them first. -/
theorem c8_reload_rebuilds (cfg : Config) (st st2 : EngineState) :
    reload cfg st = reload cfg st2
    ∧ reload cfg st = loadPatches cfg ⟨[], []⟩
    ∧ shutdown st = ⟨[], []⟩ :=
  ⟨rfl, rfl, rfl⟩

theorem parseLines_header_entry (isLocal : Bool) (nm eline : Str) (entry : PatchEntry)
    (hn : nm ≠ []) (he : deserializeLineChars eline = some entry)
    (hh : eline.head? ≠ some '$') :
    parseLines isLocal ['$' :: nm, eline] [] =
      [{ name := nm, entries := [entry], user_defined := isLocal }] := by
  cases eline with
  | nil => simp [deserializeLineChars, deserializeFromItems, lineItems, splitOnChar, replaceFirstEq] at he
  | cons c rest =>
    have hc : c ≠ '$' := by
      intro hceq
      subst hceq
      simp at hh
    simp [parseLines, scanFrom, processLine, emptyPatch, hn, hc, he]

/-- C5: a header line flushes the previous in-progress patch exactly when
its name is non-empty (its entries may be empty), whereas the trailing
patch of a scan is flushed only when it also has at least one entry: the
header-started patch n1 survives with zero entries, the trailing patch n2
with zero entries is dropped, and a trailing patch with one entry is
kept. -/
theorem c5_flush_asymmetry (isLocal : Bool) (cur : Patch) (ps : List Patch)
    (n1 n2 eline : Str) (entry : PatchEntry)
    (h1 : n1 ≠ []) (h2 : n2 ≠ [])
    (he : deserializeLineChars eline = some entry)
    (hh : eline.head? ≠ some '$') :
    (processLine isLocal (cur, ps) ('$' :: n1)).2 =
      (if cur.name = [] then ps else ps ++ [cur])
    ∧ parseLines isLocal ['$' :: n1, '$' :: n2] [] =
        [{ name := n1, entries := [], user_defined := isLocal }]
    ∧ parseLines isLocal ['$' :: n1, eline] [] =
        [{ name := n1, entries := [entry], user_defined := isLocal }] := by
  refine ⟨by simp [processLine], ?_, parseLines_header_entry isLocal n1 eline entry h1 he hh⟩
  simp [parseLines, scanFrom, processLine, emptyPatch, h1, h2]

/-- C5 witness at a concrete source: header flush keeps the entriless
patch A, the trailing entriless patch B is dropped, a trailing patch with
one entry is kept. -/
theorem c5_flush_asymmetry_witness :
    (processLine false (emptyPatch, []) ('$' :: ("A").data)).2 =
      (if emptyPatch.name = [] then ([] : List Patch) else [] ++ [emptyPatch])
    ∧ parseLines false ['$' :: ("A").data, '$' :: ("B").data] [] =
        [{ name := ("A").data, entries := [], user_defined := false }]
    ∧ parseLines false ['$' :: ("A").data, ("0:byte:0").data] [] =
        [{ name := ("A").data,
           entries := [{ type := 0, address := 0, value := 0 }],
           user_defined := false }] :=
  c5_flush_asymmetry false emptyPatch [] (("A").data) (("B").data)
    (("0:byte:0").data) { type := 0, address := 0, value := 0 }
    (by decide) (by decide) (by decide) (by decide)

theorem scanFrom_entries_irrelevant (isLocal : Bool) :
    ∀ (lines : List Str) (e d u : Bool) (es1 es2 : List PatchEntry) (ps : List Patch),
      scanFrom isLocal lines (⟨[], es1, e, d, u⟩, ps) =
      scanFrom isLocal lines (⟨[], es2, e, d, u⟩, ps) := by
  intro lines
  induction lines with
  | nil => intro e d u es1 es2 ps; simp [scanFrom]
  | cons l rest ih =>
    intro e d u es1 es2 ps
    cases l with
    | nil => simpa [scanFrom, processLine] using ih e d u es1 es2 ps
    | cons c cs =>
      by_cases hc : c = '$'
      · subst hc
        simp [scanFrom, processLine]
      · cases hd : deserializeLineChars (c :: cs) with
        | none => simpa [scanFrom, processLine, hc, hd] using ih e d u es1 es2 ps
        | some en =>
          simpa [scanFrom, processLine, hc, hd] using
            ih e d u (es1 ++ [en]) (es2 ++ [en]) ps

/-- C10: entry lines occurring before the first header line of a source
are silently discarded — a prefix containing no `$` line does not change
the outcome of the scan. -/
theorem c10_headerless_prefix_dropped (isLocal : Bool) (pre rest : List Str)
    (init : List Patch) (hpre : ∀ l ∈ pre, l.head? ≠ some '$') :
    parseLines isLocal (pre ++ rest) init = parseLines isLocal rest init := by
  induction pre with
  | nil => rfl
  | cons l pre2 ih =>
    have hl := hpre l (List.mem_cons_self _ _)
    have hpre2 : ∀ l2 ∈ pre2, l2.head? ≠ some '$' :=
      fun l2 hm => hpre l2 (List.mem_cons_of_mem _ hm)
    have step : parseLines isLocal ((l :: pre2) ++ rest) init =
        parseLines isLocal (pre2 ++ rest) init := by
      cases l with
      | nil => simp [parseLines, scanFrom, processLine]
      | cons c cs =>
        have hc : c ≠ '$' := by
          intro hceq
          subst hceq
          simp at hl
        cases hd : deserializeLineChars (c :: cs) with
        | none => simp [parseLines, scanFrom, processLine, hc, hd]
        | some en =>
          have := scanFrom_entries_irrelevant isLocal (pre2 ++ rest)
            false false false ([] ++ [en]) [] init
          simpa [parseLines, scanFrom, processLine, hc, hd, emptyPatch] using this
    rw [step, ih hpre2]

/-- C10 witness: two well-formed entry lines ahead of any header vanish. -/
theorem c10_headerless_prefix_dropped_witness :
    parseLines false ([("0:byte:0").data, ("junk").data] ++ ['$' :: ("A").data]) [] =
    parseLines false ['$' :: ("A").data] [] :=
  c10_headerless_prefix_dropped false [("0:byte:0").data, ("junk").data]
    ['$' :: ("A").data] [] (by decide)

theorem read8_write8_same (m : Mem) (a v : Nat) : read8 (write8 m a v) a = v % 256 := by
  simp [read8, write8]

theorem read8_write8_other (m : Mem) (a v b : Nat) (h : b % two32 ≠ a % two32) :
    read8 (write8 m a v) b = read8 m b := by
  simp [read8, write8, h]

theorem mod_add_ne (a i j : Nat) (hi : i < two32) (hj : j < two32) (hij : i ≠ j) :
    (a + i) % two32 ≠ (a + j) % two32 := by
  unfold two32 at *
  omega

theorem read16_write16_same (m : Mem) (a v : Nat) :
    read16 (write16 m a v) a = v % two16 := by
  have h1 : a % two32 ≠ (a + 1) % two32 := by
    have := mod_add_ne a 0 1 (by unfold two32; omega) (by unfold two32; omega) (by omega)
    simpa using this
  simp only [read16, write16]
  rw [read8_write8_other _ _ _ _ h1, read8_write8_same, read8_write8_same]
  unfold two16
  omega

theorem read32_write32_same (m : Mem) (a v : Nat) :
    read32 (write32 m a v) a = v % two32 := by
  have hlt : ∀ i : Nat, i < 4 → i < two32 := by
    intro i hi
    unfold two32
    omega
  have h01 : (a + 0) % two32 ≠ (a + 1) % two32 :=
    mod_add_ne a 0 1 (hlt 0 (by omega)) (hlt 1 (by omega)) (by omega)
  have h02 : (a + 0) % two32 ≠ (a + 2) % two32 :=
    mod_add_ne a 0 2 (hlt 0 (by omega)) (hlt 2 (by omega)) (by omega)
  have h03 : (a + 0) % two32 ≠ (a + 3) % two32 :=
    mod_add_ne a 0 3 (hlt 0 (by omega)) (hlt 3 (by omega)) (by omega)
  have h12 : (a + 1) % two32 ≠ (a + 2) % two32 :=
    mod_add_ne a 1 2 (hlt 1 (by omega)) (hlt 2 (by omega)) (by omega)
  have h13 : (a + 1) % two32 ≠ (a + 3) % two32 :=
    mod_add_ne a 1 3 (hlt 1 (by omega)) (hlt 3 (by omega)) (by omega)
  have h23 : (a + 2) % two32 ≠ (a + 3) % two32 :=
    mod_add_ne a 2 3 (hlt 2 (by omega)) (hlt 3 (by omega)) (by omega)
  have h01' : a % two32 ≠ (a + 1) % two32 := by simpa using h01
  have h02' : a % two32 ≠ (a + 2) % two32 := by simpa using h02
  have h03' : a % two32 ≠ (a + 3) % two32 := by simpa using h03
  simp only [read32, write32]
  rw [read8_write8_other _ _ _ _ h03', read8_write8_other _ _ _ _ h02',
      read8_write8_other _ _ _ _ h01', read8_write8_same,
      read8_write8_other _ _ _ _ h13, read8_write8_other _ _ _ _ h12,
      read8_write8_same,
      read8_write8_other _ _ _ _ h23, read8_write8_same,
      read8_write8_same]
  unfold two32
  omega

/-- C2: per-entry semantics of ApplyPatches — a conditional entry whose
comparand (truncated to the entry's width) differs from the current
memory value leaves memory untouched; an entry that is unconditional or
whose comparison succeeds writes its value truncated to the width; an
entry with an unrecognized type is a no-op; and a patch contributes its
entries in order exactly when it is enabled. -/
theorem c2_apply_entry_semantics (m : Mem) (e : PatchEntry) :
    (3 ≤ e.type → applyOneEntry m e = m)
    ∧ (e.type < 3 → e.conditional = true →
        readW e.type m e.address ≠ e.comparand % widthMod e.type →
        applyOneEntry m e = m)
    ∧ (e.type < 3 →
        (e.conditional = false ∨
          readW e.type m e.address = e.comparand % widthMod e.type) →
        readW e.type (applyOneEntry m e) e.address = e.value % widthMod e.type)
    ∧ (∀ p : Patch, applyPatchesMem [p] m =
        if p.enabled then p.entries.foldl applyOneEntry m else m) := by
  obtain ⟨t, ea, ev, ec, eb⟩ := e
  refine ⟨?_, ?_, ?_, ?_⟩
  · intro h3
    match t, h3 with
    | n + 3, _ => rfl
  · intro h3 hb hne
    have hb2 : eb = true := hb
    subst hb2
    match t, h3 with
    | 0, _ =>
      simp only [readW, widthMod] at hne
      simp [applyOneEntry, hne]
    | 1, _ =>
      simp only [readW, widthMod] at hne
      simp [applyOneEntry, hne]
    | 2, _ =>
      simp only [readW, widthMod] at hne
      simp [applyOneEntry, hne]
  · intro h3 hok
    match t, h3 with
    | 0, _ =>
      simp only [readW, widthMod] at hok ⊢
      rcases hok with hb | heq
      · have hb2 : eb = false := hb
        subst hb2
        simp [applyOneEntry, read8_write8_same]
      · cases eb
        all_goals simp [applyOneEntry, heq, read8_write8_same]
    | 1, _ =>
      simp only [readW, widthMod] at hok ⊢
      rcases hok with hb | heq
      · have hb2 : eb = false := hb
        subst hb2
        simp [applyOneEntry, read16_write16_same]
      · cases eb
        all_goals simp [applyOneEntry, heq, read16_write16_same]
    | 2, _ =>
      simp only [readW, widthMod] at hok ⊢
      rcases hok with hb | heq
      · have hb2 : eb = false := hb
        subst hb2
        simp [applyOneEntry, read32_write32_same]
      · cases eb
        all_goals simp [applyOneEntry, heq, read32_write32_same]
  · intro p
    by_cases hp : p.enabled <;> simp [applyPatchesMem, hp]

/-- C2 witness: an unconditional byte write becomes readable. -/
theorem c2_apply_entry_semantics_witness :
    readW 0 (applyOneEntry (fun _ => 0) { type := 0, address := 0, value := 7 }) 0 =
      7 % widthMod 0 :=
  (c2_apply_entry_semantics (fun _ => 0) { type := 0, address := 0, value := 7 }).2.2.1
    (by decide) (Or.inl rfl)

/-- C1: ApplyFramePatches returns false with the machine (guest memory,
registers, flags) left untouched whenever either translation flag is off
or the stack-sanity heuristic fails, and returns true exactly when both
flags are on and the heuristic passes. -/
theorem c1_frame_patch_gate (runRio runGecko runAR : Machine → Machine)
    (patches : List Patch) (m : Machine) :
    (¬(m.dr = true ∧ m.ir = true ∧ isStackSane m = true) →
        applyFramePatches runRio runGecko runAR patches m = (false, m))
    ∧ ((applyFramePatches runRio runGecko runAR patches m).1 = true ↔
        (m.dr = true ∧ m.ir = true ∧ isStackSane m = true)) := by
  by_cases h : (m.dr = true ∧ m.ir = true ∧ isStackSane m = true)
  · obtain ⟨h1, h2, h3⟩ := h
    constructor
    · intro hn
      exact absurd ⟨h1, h2, h3⟩ hn
    · simp only [applyFramePatches, h1, h2, h3]
      by_cases ht : (runGecko (runRio m)).tagSetActive <;> simp [ht]
  · constructor
    · intro _
      have hcond : ¬m.dr = true ∨ ¬m.ir = true ∨ ¬isStackSane m = true := by
        by_contra hc
        push_neg at hc
        exact h ⟨hc.1, hc.2.1, hc.2.2⟩
      simp only [applyFramePatches]
      rcases hcond with h1 | h2 | h3
      · simp [h1]
      · simp [h2]
      · simp [h3]
    · constructor
      · intro htrue
        by_contra
        have hcond : ¬m.dr = true ∨ ¬m.ir = true ∨ ¬isStackSane m = true := by
          by_contra hc
          push_neg at hc
          exact h ⟨hc.1, hc.2.1, hc.2.2⟩
        have : applyFramePatches runRio runGecko runAR patches m = (false, m) := by
          simp only [applyFramePatches]
          rcases hcond with h1 | h2 | h3
          · simp [h1]
          · simp [h2]
          · simp [h3]
        rw [this] at htrue
        simp at htrue
      · intro hcond
        exact absurd hcond h

/-- C1 witness: with both translation flags off and trivial memory the
applier declines and hands back the machine unchanged. -/
theorem c1_frame_patch_gate_witness :
    applyFramePatches id id id []
      ⟨false, false, 0, fun _ => 0, fun _ => false, fun _ => false, fun _ => 0, false⟩ =
    (false,
      ⟨false, false, 0, fun _ => 0, fun _ => false, fun _ => false, fun _ => 0, false⟩) :=
  (c1_frame_patch_gate id id id []
    ⟨false, false, 0, fun _ => 0, fun _ => false, fun _ => false, fun _ => 0, false⟩).1
    (by simp)

theorem serializeLineChars_isSome (e : PatchEntry) (h : e.type < 3) :
    ∃ s, serializeLineChars e = some s := by
  obtain ⟨t, a, v, c, b⟩ := e
  have ht : t < 3 := h
  match t, ht with
  | 0, _ => cases b <;> simp [serializeLineChars, patchTypeAsString, s_patch_type_strings]
  | 1, _ => cases b <;> simp [serializeLineChars, patchTypeAsString, s_patch_type_strings]
  | 2, _ => cases b <;> simp [serializeLineChars, patchTypeAsString, s_patch_type_strings]

theorem serializeEntries_eq (es : List PatchEntry) (h : ∀ e ∈ es, e.type < 3) :
    serializeEntries es = some (es.filterMap serializeLineChars) := by
  induction es with
  | nil => rfl
  | cons e es2 ih =>
    obtain ⟨s, hs⟩ := serializeLineChars_isSome e (h e (List.mem_cons_self _ _))
    have ih2 := ih (fun e2 hm => h e2 (List.mem_cons_of_mem _ hm))
    simp [serializeEntries, hs, ih2, List.filterMap_cons]

theorem saveLoop_characterization (ps : List Patch)
    (h : ∀ p ∈ ps, ∀ e ∈ p.entries, e.type < 3) :
    ∀ acc : SaveOutput,
      saveLoop ps acc = some
        ⟨acc.lines ++ (ps.filter (fun p => p.user_defined)).bind
            (fun p => ('$' :: p.name) :: p.entries.filterMap serializeLineChars),
         acc.lines_enabled ++
            ((ps.filter (fun p => p.enabled && !p.default_enabled)).map
              (fun p => '$' :: p.name)),
         acc.lines_disabled ++
            ((ps.filter (fun p => !p.enabled && p.default_enabled)).map
              (fun p => '$' :: p.name))⟩ := by
  induction ps with
  | nil => intro acc; simp [saveLoop]
  | cons p ps2 ih =>
    intro acc
    have hp := h p (List.mem_cons_self _ _)
    have ih2 := ih (fun p2 hm => h p2 (List.mem_cons_of_mem _ hm))
    obtain ⟨nm, es, en, de, ud⟩ := p
    have hser := serializeEntries_eq es hp
    cases en <;> cases de <;> cases ud <;>
      simp [saveLoop, savePatchStep, hser, ih2, List.filter_cons, List.bind]

/-- C4: SavePatchSection emits a `$name` override line exactly for the
patches whose enabled differs from default_enabled (into the enabled or
the disabled list according to the current enabled value), and re-emits a
full definition — the `$name` header followed by each entry's serialized
line in order — exactly for the user-defined patches. -/
theorem c4_save_patch_section (ps : List Patch)
    (h : ∀ p ∈ ps, ∀ e ∈ p.entries, e.type < 3) :
    ∃ out, savePatchSection ps = some out
      ∧ out.lines_enabled =
          (ps.filter (fun p => p.enabled && !p.default_enabled)).map
            (fun p => '$' :: p.name)
      ∧ out.lines_disabled =
          (ps.filter (fun p => !p.enabled && p.default_enabled)).map
            (fun p => '$' :: p.name)
      ∧ out.lines =
          (ps.filter (fun p => p.user_defined)).bind
            (fun p => ('$' :: p.name) :: p.entries.filterMap serializeLineChars) := by
  have hc := saveLoop_characterization ps h ⟨[], [], []⟩
  simp only [List.nil_append] at hc
  exact ⟨_, by rw [savePatchSection, hc], rfl, rfl, rfl⟩

/-- C4 witness: one enabled-overridden user patch and one disabled
shipped patch produce exactly one definition block and one override line
each. -/
theorem c4_save_patch_section_witness :
    ∃ out,
      savePatchSection
        [⟨("A").data, [{ type := 0, address := 1, value := 2 }], true, false, true⟩,
         ⟨("B").data, [], false, true, false⟩] = some out
      ∧ out.lines_enabled =
          (([⟨("A").data, [{ type := 0, address := 1, value := 2 }], true, false, true⟩,
             ⟨("B").data, [], false, true, false⟩] : List Patch).filter
            (fun p => p.enabled && !p.default_enabled)).map (fun p => '$' :: p.name)
      ∧ out.lines_disabled =
          (([⟨("A").data, [{ type := 0, address := 1, value := 2 }], true, false, true⟩,
             ⟨("B").data, [], false, true, false⟩] : List Patch).filter
            (fun p => !p.enabled && p.default_enabled)).map (fun p => '$' :: p.name)
      ∧ out.lines =
          (([⟨("A").data, [{ type := 0, address := 1, value := 2 }], true, false, true⟩,
             ⟨("B").data, [], false, true, false⟩] : List Patch).filter
            (fun p => p.user_defined)).bind
            (fun p => ('$' :: p.name) :: p.entries.filterMap serializeLineChars) :=
  c4_save_patch_section
    [⟨("A").data, [{ type := 0, address := 1, value := 2 }], true, false, true⟩,
     ⟨("B").data, [], false, true, false⟩] (by decide)

theorem append_ne_self (a b : Str) (hb : b ≠ []) : a ++ b ≠ a := by
  intro h
  have hlen := congrArg List.length h
  simp only [List.length_append] at hlen
  have : b.length = 0 := by omega
  exact hb (List.length_eq_zero.mp this)

/-- C3: a patch defined and enabled by the global source and overridden
to disabled by the local source's Disabled set ends the merge with
enabled false, default_enabled true (snapshotted after the global pass,
before the local overrides) and user_defined false. -/
theorem c3_default_enabled_snapshot (sect nm eline : Str) (entry : PatchEntry)
    (hn : nm ≠ []) (he : deserializeLineChars eline = some entry)
    (hh : eline.head? ≠ some '$') :
    loadPatchSection sect
      (fun s => if s = sect then ['$' :: nm, eline]
                else if s = sect ++ enabledSuffix then ['$' :: nm] else [])
      (fun s => if s = sect ++ disabledSuffix then ['$' :: nm] else [])
      [] =
    [{ name := nm, entries := [entry], enabled := false, default_enabled := true,
       user_defined := false }] := by
  have hes : sect ++ enabledSuffix ≠ sect :=
    append_ne_self sect enabledSuffix (by decide)
  have hds : sect ++ disabledSuffix ≠ sect :=
    append_ne_self sect disabledSuffix (by decide)
  have hed : sect ++ disabledSuffix ≠ sect ++ enabledSuffix := by
    intro hcontra
    have := List.append_cancel_left hcontra
    simp [enabledSuffix, disabledSuffix] at this
  have hds2 : sect ≠ sect ++ disabledSuffix := fun h2 => hds h2.symm
  have hed2 : sect ++ enabledSuffix ≠ sect ++ disabledSuffix := fun h2 => hed h2.symm
  have hparse := parseLines_header_entry false nm eline entry hn he hh
  simp only [loadPatchSection, readEnabledAndDisabled, readEnabledOrDisabled,
    hes, hds, hed, hds2, hed2, eq_self_iff_true, if_true, if_false, ite_true, ite_false]
  rw [hparse]
  have hd1 : disabledSuffix ≠ [] := by decide
  have hd2 : disabledSuffix ≠ enabledSuffix := by decide
  simp [parseLines, scanFrom, processLine, emptyPatch, hd1, hd2]

/-- C3 witness at the concrete patch name Foo. -/
theorem c3_default_enabled_snapshot_witness :
    loadPatchSection ("OnFrame").data
      (fun s => if s = ("OnFrame").data then ['$' :: ("Foo").data, ("0:byte:0").data]
                else if s = ("OnFrame").data ++ enabledSuffix then ['$' :: ("Foo").data] else [])
      (fun s => if s = ("OnFrame").data ++ disabledSuffix then ['$' :: ("Foo").data] else [])
      [] =
    [{ name := ("Foo").data, entries := [{ type := 0, address := 0, value := 0 }],
       enabled := false, default_enabled := true, user_defined := false }] :=
  c3_default_enabled_snapshot (("OnFrame").data) (("Foo").data) (("0:byte:0").data)
    { type := 0, address := 0, value := 0 } (by decide) (by decide) (by decide)

theorem type_strings_findIdx?_none (x : Str) :
    (s_patch_type_strings.findIdx? (fun s => s = x) = none) ↔
      x ∉ s_patch_type_strings := by
  simp only [s_patch_type_strings, List.findIdx?_cons, List.findIdx?_nil,
    decide_eq_true_eq]
  split_ifs with hb hw hd <;> simp_all [eq_comm]

theorem deserializeFromItems_characterization (items : List Str) :
    (deserializeFromItems items = none ↔
      (items.length < 3
        ∨ tryParseU32 (items.getD 0 []) = none
        ∨ tryParseU32 (items.getD 2 []) = none
        ∨ items.getD 1 [] ∉ s_patch_type_strings
        ∨ (4 ≤ items.length ∧ tryParseU32 (items.getD 3 []) = none)))
    ∧ (∀ e, deserializeFromItems items = some e →
        (e.conditional = true ↔ 4 ≤ items.length)
        ∧ (e.conditional = true → tryParseU32 (items.getD 3 []) = some e.comparand)) := by
  match items with
  | [] => simp [deserializeFromItems]
  | [a] => simp [deserializeFromItems]
  | [a, b] => simp [deserializeFromItems]
  | a :: b :: c :: rest =>
    have hlen : ¬((a :: b :: c :: rest).length < 3) := by simp
    cases hA : tryParseU32 a with
    | none => simp [deserializeFromItems, hlen, hA]
    | some av =>
      cases hC : tryParseU32 c with
      | none => simp [deserializeFromItems, hlen, hA, hC]
      | some cv =>
        cases rest with
        | nil =>
          cases hF : s_patch_type_strings.findIdx? (fun s => s = b) with
          | none =>
            have hmem := (type_strings_findIdx?_none b).mp hF
            simp [deserializeFromItems, hlen, hA, hC, hF, hmem]
          | some t =>
            have hmem : b ∈ s_patch_type_strings := by
              by_contra hcontra
              rw [← type_strings_findIdx?_none] at hcontra
              rw [hF] at hcontra
              simp at hcontra
            constructor
            · simp [deserializeFromItems, hlen, hA, hC, hF, hmem]
            · intro e hsome
              simp [deserializeFromItems, hlen, hA, hC, hF] at hsome
              subst hsome
              simp
        | cons d rest2 =>
          have h4 : 4 ≤ (a :: b :: c :: d :: rest2).length := by simp
          cases hD : tryParseU32 d with
          | none => simp [deserializeFromItems, hlen, hA, hC, hD, h4]
          | some dv =>
            cases hF : s_patch_type_strings.findIdx? (fun s => s = b) with
            | none =>
              have hmem := (type_strings_findIdx?_none b).mp hF
              simp [deserializeFromItems, hlen, hA, hC, hD, hF, hmem, h4]
            | some t =>
              have hmem : b ∈ s_patch_type_strings := by
                by_contra hcontra
                rw [← type_strings_findIdx?_none] at hcontra
                rw [hF] at hcontra
                simp at hcontra
              constructor
              · simp [deserializeFromItems, hlen, hA, hC, hD, hF, hmem, h4]
              · intro e hsome
                simp [deserializeFromItems, hlen, hA, hC, hD, hF] at hsome
                subst hsome
                simp [hD, h4]

/-- C7: Deserialize fails exactly when — after replacing the first `=`
with `:` and splitting on `:` — fewer than 3 fields result, the address
or value field fails integer parse, the type field is none of the three
tokens, or a present 4th field fails integer parse; in every other case
it returns an entry, a parseable 4th field setting the comparand and
marking the entry conditional. -/
theorem c7_deserialize_failure_modes (line : Str) :
    (deserializeLineChars line = none ↔
      ((lineItems line).length < 3
        ∨ tryParseU32 ((lineItems line).getD 0 []) = none
        ∨ tryParseU32 ((lineItems line).getD 2 []) = none
        ∨ (lineItems line).getD 1 [] ∉ s_patch_type_strings
        ∨ (4 ≤ (lineItems line).length ∧
            tryParseU32 ((lineItems line).getD 3 []) = none)))
    ∧ (∀ e, deserializeLineChars line = some e →
        (e.conditional = true ↔ 4 ≤ (lineItems line).length)
        ∧ (e.conditional = true →
            tryParseU32 ((lineItems line).getD 3 []) = some e.comparand)) :=
  deserializeFromItems_characterization (lineItems line)

/-- C7 witness: a conditional line decodes with its comparand, and its
field list has 4 fields. -/
theorem c7_deserialize_failure_modes_witness :
    (({ type := 0, address := 1, value := 2, comparand := 3,
        conditional := true } : PatchEntry).conditional = true ↔
      4 ≤ (lineItems (("1:byte:2:3").data)).length)
    ∧ (({ type := 0, address := 1, value := 2, comparand := 3,
          conditional := true } : PatchEntry).conditional = true →
        tryParseU32 ((lineItems (("1:byte:2:3").data)).getD 3 []) =
          some ({ type := 0, address := 1, value := 2, comparand := 3,
                  conditional := true } : PatchEntry).comparand) :=
  (c7_deserialize_failure_modes (("1:byte:2:3").data)).2
    { type := 0, address := 1, value := 2, comparand := 3, conditional := true }
    (by decide)

theorem hexVal_toHexDigit : ∀ d, d < 16 → hexVal (toHexDigit d) = some d := by
  decide

theorem toHexDigit_ne : ∀ d, d < 16 → toHexDigit d ≠ ':' ∧ toHexDigit d ≠ '=' := by
  decide

theorem mem_toHexRev (ch : Char) :
    ∀ k n, ch ∈ toHexRev k n → ∃ d, d < 16 ∧ ch = toHexDigit d := by
  intro k
  induction k with
  | zero => intro n h; simp [toHexRev] at h
  | succ k2 ih =>
    intro n h
    rcases List.mem_cons.mp h with h1 | h2
    · exact ⟨n % 16, Nat.mod_lt _ (by omega), h1⟩
    · exact ih (n / 16) h2

theorem colon_not_mem_hex8 (n : Nat) : ':' ∉ hex8 n := by
  intro h
  simp only [hex8, List.mem_cons] at h
  rcases h with h | h | h
  · exact absurd h (by decide)
  · exact absurd h (by decide)
  · obtain ⟨d, hd, hch⟩ := mem_toHexRev ':' 8 n (List.mem_reverse.mp h)
    exact (toHexDigit_ne d hd).1 hch.symm

theorem eq_not_mem_hex8 (n : Nat) : '=' ∉ hex8 n := by
  intro h
  simp only [hex8, List.mem_cons] at h
  rcases h with h | h | h
  · exact absurd h (by decide)
  · exact absurd h (by decide)
  · obtain ⟨d, hd, hch⟩ := mem_toHexRev '=' 8 n (List.mem_reverse.mp h)
    exact (toHexDigit_ne d hd).2 hch.symm

theorem parseDigitsAux_append (b : Nat) (dv : Char → Option Nat) :
    ∀ (xs ys : Str) (acc : Nat),
      parseDigitsAux b dv (xs ++ ys) acc =
        match parseDigitsAux b dv xs acc with
        | none => none
        | some a2 => parseDigitsAux b dv ys a2 := by
  intro xs
  induction xs with
  | nil => intro ys acc; rfl
  | cons ch xs2 ih =>
    intro ys acc
    simp only [List.cons_append, parseDigitsAux]
    cases dv ch with
    | none => rfl
    | some d => exact ih ys (acc * b + d)

theorem parse_toHexRev :
    ∀ (k n acc : Nat), n < 16 ^ k →
      parseDigitsAux 16 hexVal ((toHexRev k n).reverse) acc =
        some (acc * 16 ^ k + n) := by
  intro k
  induction k with
  | zero =>
    intro n acc h
    have : n = 0 := by omega
    subst this
    simp [toHexRev, parseDigitsAux]
  | succ k2 ih =>
    intro n acc h
    have hdiv : n / 16 < 16 ^ k2 := by
      rw [Nat.div_lt_iff_lt_mul (by omega)]
      calc n < 16 ^ (k2 + 1) := h
        _ = 16 ^ k2 * 16 := by rw [Nat.pow_succ]
    have hmod : n % 16 < 16 := Nat.mod_lt _ (by omega)
    simp only [toHexRev, List.reverse_cons, parseDigitsAux_append,
      ih (n / 16) acc hdiv]
    simp only [parseDigitsAux, hexVal_toHexDigit (n % 16) hmod]
    congr 1
    have hdm : 16 * (n / 16) + n % 16 = n := Nat.div_add_mod n 16
    calc (acc * 16 ^ k2 + n / 16) * 16 + n % 16
        = acc * (16 ^ k2 * 16) + (16 * (n / 16) + n % 16) := by ring
      _ = acc * 16 ^ (k2 + 1) + n := by rw [hdm, Nat.pow_succ]

theorem tryParseU32_hex8 (n : Nat) (h : n < two32) : tryParseU32 (hex8 n) = some n := by
  have h16 : n < 16 ^ 8 := by
    unfold two32 at h
    omega
  have hlen : (toHexRev 8 n).reverse ≠ [] := by
    have : (toHexRev 8 n).length = 8 := by
      simp [toHexRev]
    intro hcontra
    rw [← List.length_eq_zero] at hcontra
    rw [List.length_reverse] at hcontra
    omega
  have hparse : parseUnsigned 16 hexVal ((toHexRev 8 n).reverse) = some n := by
    cases hrev : (toHexRev 8 n).reverse with
    | nil => exact absurd hrev hlen
    | cons r rs =>
      have := parse_toHexRev 8 n 0 h16
      rw [hrev] at this
      simpa [parseUnsigned] using this
  simp only [hex8, tryParseU32, hparse]
  simp [h]

theorem splitOnChar_ne_nil (d : Char) : ∀ l : Str, splitOnChar d l ≠ [] := by
  intro l
  cases l with
  | nil => simp [splitOnChar]
  | cons c cs =>
    simp only [splitOnChar]
    cases splitOnChar d cs with
    | nil => simp
    | cons f rest =>
      by_cases h : c = d <;> simp [h]

theorem splitOnChar_of_not_mem (d : Char) :
    ∀ l : Str, d ∉ l → splitOnChar d l = [l] := by
  intro l
  induction l with
  | nil => intro _; rfl
  | cons c cs ih =>
    intro h
    have hc : c ≠ d := fun hcontra => h (hcontra ▸ List.mem_cons_self _ _)
    have hcs : d ∉ cs := fun hcontra => h (List.mem_cons_of_mem _ hcontra)
    simp only [splitOnChar, ih hcs, if_neg hc]

theorem splitOnChar_append (d : Char) :
    ∀ (xs ys : Str), d ∉ xs →
      splitOnChar d (xs ++ d :: ys) = xs :: splitOnChar d ys := by
  intro xs
  induction xs with
  | nil =>
    intro ys _
    simp only [List.nil_append, splitOnChar]
    cases hys : splitOnChar d ys with
    | nil => exact absurd hys (splitOnChar_ne_nil d ys)
    | cons f rest => simp
  | cons c cs ih =>
    intro ys h
    have hc : c ≠ d := fun hcontra => h (hcontra ▸ List.mem_cons_self _ _)
    have hcs : d ∉ cs := fun hcontra => h (List.mem_cons_of_mem _ hcontra)
    simp only [List.cons_append, splitOnChar, List.append_eq]
    rw [ih ys hcs]
    simp [hc]

theorem replaceFirstEq_of_not_mem : ∀ l : Str, '=' ∉ l → replaceFirstEq l = l := by
  intro l
  induction l with
  | nil => intro _; rfl
  | cons c cs ih =>
    intro h
    have hc : c ≠ '=' := fun hcontra => h (hcontra ▸ List.mem_cons_self _ _)
    have hcs : '=' ∉ cs := fun hcontra => h (List.mem_cons_of_mem _ hcontra)
    simp only [replaceFirstEq, if_neg hc, ih hcs]

theorem roundtrip_entry (t : Nat) (ts : Str) (a v c : Nat) (b : Bool)
    (ha : a < two32) (hv : v < two32) (hc : c < two32)
    (hts : patchTypeAsString t = some ts)
    (hidx : s_patch_type_strings.findIdx? (fun s => s = ts) = some t)
    (hcol : ':' ∉ ts) (heqm : '=' ∉ ts) :
    ∃ line e2,
      serializeLineChars ⟨t, a, v, c, b⟩ = some line
      ∧ deserializeLineChars line = some e2
      ∧ serializeLineChars e2 = some line := by
  cases b with
  | false =>
    refine ⟨hex8 a ++ ':' :: (ts ++ ':' :: hex8 v), ⟨t, a, v, 0, false⟩, ?_, ?_, ?_⟩
    · simp [serializeLineChars, hts]
    · have hmem : '=' ∉ hex8 a ++ ':' :: (ts ++ ':' :: hex8 v) := by
        intro hm
        rcases List.mem_append.mp hm with hm | hm
        · exact eq_not_mem_hex8 a hm
        · rcases List.mem_cons.mp hm with hm | hm
          · exact absurd hm (by decide)
          · rcases List.mem_append.mp hm with hm | hm
            · exact heqm hm
            · rcases List.mem_cons.mp hm with hm | hm
              · exact absurd hm (by decide)
              · exact eq_not_mem_hex8 v hm
      have hsplit : lineItems (hex8 a ++ ':' :: (ts ++ ':' :: hex8 v)) =
          [hex8 a, ts, hex8 v] := by
        rw [lineItems, replaceFirstEq_of_not_mem _ hmem,
          splitOnChar_append ':' (hex8 a) _ (colon_not_mem_hex8 a),
          splitOnChar_append ':' ts _ hcol,
          splitOnChar_of_not_mem ':' (hex8 v) (colon_not_mem_hex8 v)]
      rw [deserializeLineChars, hsplit]
      simp [deserializeFromItems, tryParseU32_hex8 a ha, tryParseU32_hex8 v hv, hidx]
    · simp [serializeLineChars, hts]
  | true =>
    refine ⟨hex8 a ++ ':' :: (ts ++ ':' :: (hex8 v ++ ':' :: hex8 c)),
      ⟨t, a, v, c, true⟩, ?_, ?_, ?_⟩
    · simp [serializeLineChars, hts]
    · have hmem : '=' ∉ hex8 a ++ ':' :: (ts ++ ':' :: (hex8 v ++ ':' :: hex8 c)) := by
        intro hm
        rcases List.mem_append.mp hm with hm | hm
        · exact eq_not_mem_hex8 a hm
        · rcases List.mem_cons.mp hm with hm | hm
          · exact absurd hm (by decide)
          · rcases List.mem_append.mp hm with hm | hm
            · exact heqm hm
            · rcases List.mem_cons.mp hm with hm | hm
              · exact absurd hm (by decide)
              · rcases List.mem_append.mp hm with hm | hm
                · exact eq_not_mem_hex8 v hm
                · rcases List.mem_cons.mp hm with hm | hm
                  · exact absurd hm (by decide)
                  · exact eq_not_mem_hex8 c hm
      have hsplit : lineItems (hex8 a ++ ':' :: (ts ++ ':' :: (hex8 v ++ ':' :: hex8 c))) =
          [hex8 a, ts, hex8 v, hex8 c] := by
        rw [lineItems, replaceFirstEq_of_not_mem _ hmem,
          splitOnChar_append ':' (hex8 a) _ (colon_not_mem_hex8 a),
          splitOnChar_append ':' ts _ hcol,
          splitOnChar_append ':' (hex8 v) _ (colon_not_mem_hex8 v),
          splitOnChar_of_not_mem ':' (hex8 c) (colon_not_mem_hex8 c)]
      rw [deserializeLineChars, hsplit]
      simp [deserializeFromItems, tryParseU32_hex8 a ha, tryParseU32_hex8 v hv,
        tryParseU32_hex8 c hc, hidx]
    · simp [serializeLineChars, hts]

/-- C6: for every line in the canonical serialized form — the image of
SerializeLine on an in-range entry, unconditional or conditional — the
deserialize/serialize round trip reproduces the line exactly, the
comparand field included. -/
theorem c6_serialize_roundtrip (t a v c : Nat) (b : Bool)
    (ha : a < two32) (hv : v < two32) (hc : c < two32) (ht : t < 3) :
    ∃ line e2,
      serializeLineChars ⟨t, a, v, c, b⟩ = some line
      ∧ deserializeLineChars line = some e2
      ∧ serializeLineChars e2 = some line := by
  match t, ht with
  | 0, _ =>
    exact roundtrip_entry 0 byteTok a v c b ha hv hc (by decide) (by decide)
      (by decide) (by decide)
  | 1, _ =>
    exact roundtrip_entry 1 wordTok a v c b ha hv hc (by decide) (by decide)
      (by decide) (by decide)
  | 2, _ =>
    exact roundtrip_entry 2 dwordTok a v c b ha hv hc (by decide) (by decide)
      (by decide) (by decide)

/-- C6 witness: the round trip at a concrete conditional dword entry. -/
theorem c6_serialize_roundtrip_witness :
    ∃ line e2,
      serializeLineChars ⟨2, 32768, 1, 0, true⟩ = some line
      ∧ deserializeLineChars line = some e2
      ∧ serializeLineChars e2 = some line :=
  c6_serialize_roundtrip 2 32768 1 0 true (by decide) (by decide) (by decide)
    (by decide)

end PatchEngine
